import Mathlib

/-!
Verification of the content-aware proofreading similarity engine.

The Python sources are shallowly embedded:
* `PROOFREADING/proofreading_v3.py` (`ImageComparator`): content detection
  (`detect_content_bounds`, `detect_content_region`), per-side detection
  resolution in `calculate_similarity`, page validation aggregation in
  `validate_image`, `extract_code`.
* `PROOFREADING/PROOFREADING_WEB/app.py`: `extract_code`, the pairing loop in
  `upload_files`, `compare_images`, `validate_item`, `auto_approve`.
* `proofreading-web/backend/services/ssim_calculator.py`:
  `detect_content_bounds`, the crop/confidence/method resolution inside
  `calculate_similarity`.

Modelling conventions: grayscale page images are a width, a height and an
intensity function on (row, column); NumPy floating-point arithmetic is
modelled by exact rational arithmetic; file name strings (sliced by
`extract_code`) are modelled as lists of characters, opaque display strings
by Lean `String`.
-/

namespace Proofreading

/-- A rasterized page: width, height and grayscale intensity (0..255) at
(row, column).  Models the `np.array(img.convert('L'))` view of a PIL image. -/
structure Img where
  w : ℕ
  h : ℕ
  pix : ℕ → ℕ → ℕ

/-- A content rectangle `(left, top, right, bottom)` in source pixel
coordinates, as returned by the detectors. -/
structure Region where
  left : ℕ
  top : ℕ
  right : ℕ
  bottom : ℕ
deriving DecidableEq, Repr

/-- The data-model invariant for a `ContentRegion`: strictly positive extent
in both dimensions (hence strictly positive area). -/
def Region.positive (r : Region) : Prop :=
  r.left < r.right ∧ r.top < r.bottom

instance (r : Region) : Decidable r.positive := by
  unfold Region.positive; infer_instance

/-- `margin_threshold` default of `detect_content_bounds`: a pixel is content
iff its intensity is strictly below this value (`mask = gray < 250`). -/
def margin_threshold : ℕ := 250

/-- Number of content pixels in row `r` (one entry of `np.sum(mask, axis=1)`). -/
def rowCount (img : Img) (r : ℕ) : ℕ :=
  (List.range img.w).countP (fun c => img.pix r c < margin_threshold)

/-- Number of content pixels in column `c` (one entry of
`np.sum(mask, axis=0)`). -/
def colCount (img : Img) (c : ℕ) : ℕ :=
  (List.range img.h).countP (fun r => img.pix r c < margin_threshold)

/-- Fraction of content pixels in row `r` (`row_content` in the source; NumPy
yields `0/0 = nan` for a zero-width image, which compares false against the
ratio exactly as the rational `0` here does). -/
def rowFrac (img : Img) (r : ℕ) : ℚ :=
  (rowCount img r : ℚ) / (img.w : ℚ)

/-- Fraction of content pixels in column `c` (`col_content` in the source). -/
def colFrac (img : Img) (c : ℕ) : ℚ :=
  (colCount img c : ℚ) / (img.h : ℚ)

/-- Rows whose content fraction strictly exceeds `min_content_ratio = 0.05`
(`content_rows = np.where(row_content > min_content_ratio)[0]`). -/
def contentRows (img : Img) : List ℕ :=
  (List.range img.h).filter (fun r => decide ((0.05 : ℚ) < rowFrac img r))

/-- Columns whose content fraction strictly exceeds `min_content_ratio`. -/
def contentCols (img : Img) : List ℕ :=
  (List.range img.w).filter (fun c => decide ((0.05 : ℚ) < colFrac img c))

/-- `detect_content_bounds` (identical in `proofreading_v3.py` and
`ssim_calculator.py`, defaults `margin_threshold=250`,
`min_content_ratio=0.05`): bounding box of the qualifying rows/columns,
expanded by `int(0.02 * dim)` on each side and clamped to the image.
`max(0, x - p)` is the truncation built into ℕ subtraction; `int(h * 0.02)`
equals `h * 2 / 100` in ℕ division for all realistic sizes. -/
def detect_content_bounds (img : Img) : Option Region :=
  let rows := contentRows img
  let cols := contentCols img
  match rows.head?, rows.getLast?, cols.head?, cols.getLast? with
  | some top, some bottom, some left, some right =>
    let padding_h := img.h * 2 / 100
    let padding_w := img.w * 2 / 100
    some ⟨left - padding_w, top - padding_h,
          min img.w (right + padding_w), min img.h (bottom + padding_h)⟩
  | _, _, _, _ => none

/-! ### Helper lemmas about qualifying rows and columns -/

theorem contentRows_pairwise (img : Img) : (contentRows img).Pairwise (· < ·) :=
  List.Pairwise.filter _ (List.sorted_lt_range img.h)

theorem contentCols_pairwise (img : Img) : (contentCols img).Pairwise (· < ·) :=
  List.Pairwise.filter _ (List.sorted_lt_range img.w)

theorem head?_least {l : List ℕ} (hp : l.Pairwise (· < ·)) {a : ℕ}
    (ha : l.head? = some a) : a ∈ l ∧ ∀ x ∈ l, a ≤ x := by
  cases l with
  | nil => cases ha
  | cons y ys =>
    simp only [List.head?_cons, Option.some.injEq] at ha
    subst ha
    refine ⟨List.mem_cons_self _ _, fun x hx => ?_⟩
    rcases List.mem_cons.mp hx with rfl | hx
    · exact le_refl _
    · exact le_of_lt ((List.pairwise_cons.mp hp).1 x hx)

theorem getLast?_greatest {l : List ℕ} (hp : l.Pairwise (· < ·)) {a : ℕ}
    (ha : l.getLast? = some a) : a ∈ l ∧ ∀ x ∈ l, x ≤ a := by
  induction l with
  | nil => cases ha
  | cons y ys ih =>
    cases ys with
    | nil =>
      simp only [List.getLast?_singleton, Option.some.injEq] at ha
      subst ha
      exact ⟨List.mem_singleton_self _, fun x hx => by
        rcases List.mem_singleton.mp hx with rfl; exact le_refl _⟩
    | cons z zs =>
      rw [List.getLast?_cons_cons] at ha
      have hp' := List.pairwise_cons.mp hp
      obtain ⟨hmem, hle⟩ := ih hp'.2 ha
      refine ⟨List.mem_cons_of_mem _ hmem, fun x hx => ?_⟩
      rcases List.mem_cons.mp hx with rfl | hx
      · exact le_of_lt (hp'.1 _ hmem)
      · exact hle x hx

theorem frac_gt_iff {cnt n : ℕ} (hcn : cnt ≤ n) :
    ((0.05 : ℚ) < (cnt : ℚ) / (n : ℚ)) ↔ n < 20 * cnt := by
  rcases Nat.eq_zero_or_pos n with rfl | hn
  · interval_cases cnt
    norm_num
  · have hq : (0 : ℚ) < (n : ℚ) := by exact_mod_cast hn
    rw [lt_div_iff₀ hq, ← Nat.cast_lt (α := ℚ)]
    push_cast
    constructor <;> intro h <;> linarith

theorem rowCount_le (img : Img) (r : ℕ) : rowCount img r ≤ img.w := by
  simpa [rowCount] using
    (List.countP_le_length (l := List.range img.w)
      (p := fun c => decide (img.pix r c < margin_threshold)))

theorem colCount_le (img : Img) (c : ℕ) : colCount img c ≤ img.h := by
  simpa [colCount] using
    (List.countP_le_length (l := List.range img.h)
      (p := fun r => decide (img.pix r c < margin_threshold)))

theorem mem_contentRows (img : Img) (r : ℕ) :
    r ∈ contentRows img ↔ r < img.h ∧ img.w < 20 * rowCount img r := by
  unfold contentRows rowFrac
  rw [List.mem_filter, List.mem_range, decide_eq_true_eq]
  exact and_congr_right fun _ => frac_gt_iff (rowCount_le img r)

theorem mem_contentCols (img : Img) (c : ℕ) :
    c ∈ contentCols img ↔ c < img.w ∧ img.h < 20 * colCount img c := by
  unfold contentCols colFrac
  rw [List.mem_filter, List.mem_range, decide_eq_true_eq]
  exact and_congr_right fun _ => frac_gt_iff (colCount_le img c)

theorem detect_none_iff (img : Img) :
    detect_content_bounds img = none ↔
      contentRows img = [] ∨ contentCols img = [] := by
  unfold detect_content_bounds
  simp only
  constructor
  · intro h
    split at h
    · cases h
    · rename_i hmiss
      by_contra hne
      push_neg at hne
      obtain ⟨hr, hc⟩ := hne
      obtain ⟨t, ht⟩ := Option.ne_none_iff_exists.mp
        (mt List.head?_eq_none_iff.mp hr)
      obtain ⟨b, hb⟩ := Option.ne_none_iff_exists.mp
        (mt List.getLast?_eq_none_iff.mp hr)
      obtain ⟨l, hl⟩ := Option.ne_none_iff_exists.mp
        (mt List.head?_eq_none_iff.mp hc)
      obtain ⟨r, hrr⟩ := Option.ne_none_iff_exists.mp
        (mt List.getLast?_eq_none_iff.mp hc)
      exact hmiss t b l r ht.symm hb.symm hl.symm hrr.symm
  · intro h
    rcases h with h | h
    · rw [show (contentRows img).head? = none from List.head?_eq_none_iff.mpr h]
    · rcases h1 : (contentRows img).head? with _ | t
      · rfl
      · rcases h2 : (contentRows img).getLast? with _ | b
        · rfl
        · rw [show (contentCols img).head? = none from List.head?_eq_none_iff.mpr h]

theorem detect_some_elim (img : Img) (reg : Region)
    (h : detect_content_bounds img = some reg) :
    ∃ t b l r, (contentRows img).head? = some t
      ∧ (contentRows img).getLast? = some b
      ∧ (contentCols img).head? = some l
      ∧ (contentCols img).getLast? = some r
      ∧ reg = ⟨l - img.w * 2 / 100, t - img.h * 2 / 100,
               min img.w (r + img.w * 2 / 100),
               min img.h (b + img.h * 2 / 100)⟩ := by
  unfold detect_content_bounds at h
  simp only at h
  split at h
  · rename_i t b l r ht hb hl hrr
    exact ⟨t, b, l, r, ht, hb, hl, hrr, (Option.some.injEq _ _ ▸ h).symm⟩
  · cases h

/-- C7: the threshold detection method marks a pixel as content iff its
grayscale intensity is strictly below 250, a row or column qualifies for the
content span iff its fraction of content pixels strictly exceeds 0.05, the
returned region is the bounding box of qualifying rows and columns expanded
by the integer part of 2% of image height/width on each side and clamped to
the image bounds, and the result is `none` iff no row or no column
qualifies.  (The `try/except` in the source that maps internal errors to
`None` is subsumed here: the model is a total function.) -/
theorem detect_content_bounds_characterization (img : Img) :
    (∀ r, r ∈ contentRows img ↔ r < img.h ∧
        img.w < 20 * (List.range img.w).countP (fun c => decide (img.pix r c < 250)))
  ∧ (∀ c, c ∈ contentCols img ↔ c < img.w ∧
        img.h < 20 * (List.range img.h).countP (fun r => decide (img.pix r c < 250)))
  ∧ (detect_content_bounds img = none ↔
      contentRows img = [] ∨ contentCols img = [])
  ∧ (∀ reg, detect_content_bounds img = some reg → ∀ t b l r,
      (t ∈ contentRows img ∧ ∀ x ∈ contentRows img, t ≤ x) →
      (b ∈ contentRows img ∧ ∀ x ∈ contentRows img, x ≤ b) →
      (l ∈ contentCols img ∧ ∀ x ∈ contentCols img, l ≤ x) →
      (r ∈ contentCols img ∧ ∀ x ∈ contentCols img, x ≤ r) →
      reg = ⟨l - img.w * 2 / 100, t - img.h * 2 / 100,
             min img.w (r + img.w * 2 / 100),
             min img.h (b + img.h * 2 / 100)⟩) := by
  refine ⟨fun r => mem_contentRows img r, fun c => mem_contentCols img c,
    detect_none_iff img, ?_⟩
  intro reg hreg t b l r ht hb hl hr
  obtain ⟨t', b', l', r', ht', hb', hl', hr', hreg'⟩ := detect_some_elim img reg hreg
  obtain ⟨ht'm, ht'le⟩ := head?_least (contentRows_pairwise img) ht'
  obtain ⟨hb'm, hb'ge⟩ := getLast?_greatest (contentRows_pairwise img) hb'
  obtain ⟨hl'm, hl'le⟩ := head?_least (contentCols_pairwise img) hl'
  obtain ⟨hr'm, hr'ge⟩ := getLast?_greatest (contentCols_pairwise img) hr'
  have et : t = t' := le_antisymm (ht.2 t' ht'm) (ht'le t ht.1)
  have eb : b = b' := le_antisymm (hb'ge b hb.1) (hb.2 b' hb'm)
  have el : l = l' := le_antisymm (hl.2 l' hl'm) (hl'le l hl.1)
  have er : r = r' := le_antisymm (hr'ge r hr.1) (hr.2 r' hr'm)
  rw [et, eb, el, er, hreg']

/-- C3 (amended): a region returned by the threshold content detector always
lies inside the image bounds with `left ≤ right` and `top ≤ bottom`, and its
extent is strictly positive (the spec invariant) whenever both image
dimensions are at least 50 pixels, so that the 2% padding is at least one
pixel.  The unconditional strict positivity of the original claim fails on
smaller images, see the counterexample. -/
theorem detect_content_bounds_inbounds (img : Img) (reg : Region)
    (h : detect_content_bounds img = some reg) :
    (reg.left ≤ reg.right ∧ reg.top ≤ reg.bottom
      ∧ reg.right ≤ img.w ∧ reg.bottom ≤ img.h)
  ∧ (50 ≤ img.w → 50 ≤ img.h → reg.positive) := by
  obtain ⟨t, b, l, r, ht, hb, hl, hr, hreg⟩ := detect_some_elim img reg h
  obtain ⟨htm, htle⟩ := head?_least (contentRows_pairwise img) ht
  obtain ⟨hbm, -⟩ := getLast?_greatest (contentRows_pairwise img) hb
  obtain ⟨hlm, hlle⟩ := head?_least (contentCols_pairwise img) hl
  obtain ⟨hrm, -⟩ := getLast?_greatest (contentCols_pairwise img) hr
  have htb : t ≤ b := htle b hbm
  have hlr : l ≤ r := hlle r hrm
  have hth : t < img.h := (mem_contentRows img t).mp htm |>.1
  have hbh : b < img.h := (mem_contentRows img b).mp hbm |>.1
  have hlw : l < img.w := (mem_contentCols img l).mp hlm |>.1
  have hrw : r < img.w := (mem_contentCols img r).mp hrm |>.1
  subst hreg
  unfold Region.positive
  simp only
  omega

/-- A 10×10 page whose only content pixel sits at row 5, column 5: the single
qualifying row and column give a degenerate bounding box, and the 2% padding
truncates to zero. -/
def dotImg : Img :=
  ⟨10, 10, fun r c => if r = 5 ∧ c = 5 then 0 else 255⟩

/-- C3 counterexample: on `dotImg` the threshold detector returns the region
`(5, 5, 5, 5)`, which has zero width, zero height and zero area, refuting the
claim that every returned region satisfies `left < right`, `top < bottom`. -/
theorem detect_content_bounds_zero_area_cex :
    detect_content_bounds dotImg = some ⟨5, 5, 5, 5⟩
      ∧ ¬ Region.positive ⟨5, 5, 5, 5⟩ := by
  with_unfolding_all decide

/-- A 120×120 page with a 110×110 dark block at rows/columns 5..114; the
detector finds it with 2-pixel padding. -/
def blockImg : Img :=
  ⟨120, 120, fun r c => if 5 ≤ r ∧ r ≤ 114 ∧ 5 ≤ c ∧ c ≤ 114 then 0 else 255⟩

set_option maxRecDepth 40000 in
theorem blockImg_detect :
    detect_content_bounds blockImg = some ⟨3, 3, 116, 116⟩ := by
  with_unfolding_all decide

theorem detect_content_bounds_inbounds_witness :
    ((Region.mk 3 3 116 116).left ≤ (Region.mk 3 3 116 116).right
      ∧ (Region.mk 3 3 116 116).top ≤ (Region.mk 3 3 116 116).bottom
      ∧ (Region.mk 3 3 116 116).right ≤ blockImg.w
      ∧ (Region.mk 3 3 116 116).bottom ≤ blockImg.h)
    ∧ (Region.mk 3 3 116 116).positive :=
  ⟨(detect_content_bounds_inbounds blockImg ⟨3, 3, 116, 116⟩ blockImg_detect).1,
   (detect_content_bounds_inbounds blockImg ⟨3, 3, 116, 116⟩ blockImg_detect).2
     (by decide) (by decide)⟩

set_option maxRecDepth 40000 in
theorem detect_content_bounds_characterization_witness :
    (Region.mk 3 3 116 116) =
      ⟨5 - blockImg.w * 2 / 100, 5 - blockImg.h * 2 / 100,
        min blockImg.w (114 + blockImg.w * 2 / 100),
        min blockImg.h (114 + blockImg.h * 2 / 100)⟩ :=
  (detect_content_bounds_characterization blockImg).2.2.2
    ⟨3, 3, 116, 116⟩ blockImg_detect 5 114 5 114
    (by with_unfolding_all decide) (by with_unfolding_all decide)
    (by with_unfolding_all decide) (by with_unfolding_all decide)

/-! ### The selection policy `detect_content_region` (proofreading_v3.py) -/

/-- The `method` tag of a detection result. -/
inductive DetectMethod
  | threshold
  | edge
  | manual
  | disabled
  | full
deriving DecidableEq, Repr

/-- `content_ratio` as computed in `detect_content_region`:
`((right - left) * (bottom - top)) / (w * h)` with Python true division.
(On a zero-pixel image the Python expression would raise; the rational
convention `x / 0 = 0` then fails the gate, matching the fall-through of the
`try` in the enclosing `calculate_similarity`.) -/
def content_ratio (img : Img) (reg : Region) : ℚ :=
  (((reg.right - reg.left) * (reg.bottom - reg.top) : ℕ) : ℚ)
    / ((img.w * img.h : ℕ) : ℚ)

/-- The validation gate of `detect_content_region`:
`0.15 < content_ratio < 0.95 and width_ok and height_ok` with
`width_ok = (right - left) >= 100`, `height_ok = (bottom - top) >= 100`. -/
def region_valid (img : Img) (reg : Region) : Bool :=
  decide ((0.15 : ℚ) < content_ratio img reg)
    && decide (content_ratio img reg < (0.95 : ℚ))
    && decide (100 ≤ reg.right - reg.left)
    && decide (100 ≤ reg.bottom - reg.top)

/-- The shared fall-through tail of `detect_content_region`: try the edge
detector, validate with the same gate, else return the full image with
confidence 0.5 and method `full`. -/
def detect_region_edge_step (edgeDetect : Img → Option Region) (img : Img) :
    Region × ℚ × DetectMethod :=
  match edgeDetect img with
  | some bounds_edge =>
    if region_valid img bounds_edge then (bounds_edge, 0.7, DetectMethod.edge)
    else (⟨0, 0, img.w, img.h⟩, 0.5, DetectMethod.full)
  | none => (⟨0, 0, img.w, img.h⟩, 0.5, DetectMethod.full)

/-- `detect_content_region` from `proofreading_v3.py`: the selection policy.
The Canny edge detector (`detect_content_bounds_edge`) involves Gaussian
filtering, hysteresis and dilation over floats and is abstracted as the
parameter `edgeDetect`; the policy around it is modelled exactly. -/
def detect_content_region (edgeDetect : Img → Option Region)
    (auto_crop_enabled : Bool) (img : Img) : Region × ℚ × DetectMethod :=
  if auto_crop_enabled = false then
    (⟨0, 0, img.w, img.h⟩, 1, DetectMethod.disabled)
  else
    match detect_content_bounds img with
    | some bounds_threshold =>
      if region_valid img bounds_threshold then
        (bounds_threshold, 0.9, DetectMethod.threshold)
      else detect_region_edge_step edgeDetect img
    | none => detect_region_edge_step edgeDetect img

/-- C1: with auto-detection disabled the result is the full image with
confidence 1.0 and method `disabled`; with it enabled, the threshold method
is tried first and its region accepted iff it passes the validation gate
(area ratio strictly between 0.15 and 0.95, width and height at least 100
pixels), yielding confidence 0.9 and method `threshold`; otherwise the edge
method's region is accepted under the same gate (confidence 0.7, method
`edge`); otherwise the result is the full image with confidence 0.5 and
method `full`. -/
theorem detect_content_region_policy (edgeDetect : Img → Option Region)
    (img : Img) :
    (detect_content_region edgeDetect false img
        = (⟨0, 0, img.w, img.h⟩, 1, DetectMethod.disabled))
  ∧ (∀ b, detect_content_bounds img = some b → region_valid img b = true →
      detect_content_region edgeDetect true img
        = (b, 0.9, DetectMethod.threshold))
  ∧ (¬(∃ b, detect_content_bounds img = some b ∧ region_valid img b = true) →
      ∀ e, edgeDetect img = some e → region_valid img e = true →
        detect_content_region edgeDetect true img
          = (e, 0.7, DetectMethod.edge))
  ∧ (¬(∃ b, detect_content_bounds img = some b ∧ region_valid img b = true) →
      ¬(∃ e, edgeDetect img = some e ∧ region_valid img e = true) →
        detect_content_region edgeDetect true img
          = (⟨0, 0, img.w, img.h⟩, 0.5, DetectMethod.full)) := by
  refine ⟨rfl, ?_, ?_, ?_⟩
  · intro b hb hv
    unfold detect_content_region
    rw [hb]
    simp [hv]
  · intro hnot e he hv
    unfold detect_content_region detect_region_edge_step
    rcases hb : detect_content_bounds img with _ | b
    · rw [he]; simp [hv]
    · have hbf : region_valid img b = false := by
        by_contra hc
        exact hnot ⟨b, hb, by simpa using hc⟩
      simp [hbf, he, hv]
  · intro hnotb hnote
    unfold detect_content_region detect_region_edge_step
    rcases hb : detect_content_bounds img with _ | b
    · rcases he : edgeDetect img with _ | e
      · simp
      · have hef : region_valid img e = false := by
          by_contra hc
          exact hnote ⟨e, he, by simpa using hc⟩
        simp [he, hef]
    · have hbf : region_valid img b = false := by
        by_contra hc
        exact hnotb ⟨b, hb, by simpa using hc⟩
      rcases he : edgeDetect img with _ | e
      · simp [hbf, he]
      · have hef : region_valid img e = false := by
          by_contra hc
          exact hnote ⟨e, he, by simpa using hc⟩
        simp [hbf, he, hef]

theorem detect_content_region_policy_witness :
    detect_content_region (fun _ => none) true blockImg
      = (⟨3, 3, 116, 116⟩, 0.9, DetectMethod.threshold) :=
  (detect_content_region_policy (fun _ => none) blockImg).2.1
    ⟨3, 3, 116, 116⟩ blockImg_detect (by with_unfolding_all decide)

/-! ### Per-side detection resolution (desktop engine vs backend service) -/

/-- Per-side resolution in `calculate_similarity` (`proofreading_v3.py`):
a manual rectangle, when set, is used verbatim with confidence 1.0 and
method `manual`; otherwise the automatic selection policy runs. -/
def resolve_detection (edgeDetect : Img → Option Region)
    (auto_crop_enabled : Bool) (manual : Option Region) (img : Img) :
    Region × ℚ × DetectMethod :=
  match manual with
  | some bounds => (bounds, 1, DetectMethod.manual)
  | none => detect_content_region edgeDetect auto_crop_enabled img

/-- The two per-side detections computed by `calculate_similarity` in
`proofreading_v3.py` for (original, printer): side 1 from
`manual_bounds_original`/`img1`, side 2 from `manual_bounds_printer`/`img2`. -/
def calc_detections (edgeDetect : Img → Option Region)
    (auto_crop_enabled : Bool)
    (manual_bounds_original manual_bounds_printer : Option Region)
    (img1 img2 : Img) :
    (Region × ℚ × DetectMethod) × (Region × ℚ × DetectMethod) :=
  (resolve_detection edgeDetect auto_crop_enabled manual_bounds_original img1,
   resolve_detection edgeDetect auto_crop_enabled manual_bounds_printer img2)

/-- The bounds/confidence/method resolution inside the backend
`calculate_similarity` (`ssim_calculator.py`): output is
`(bounds1, bounds2, confidence, method)` as placed in the returned dict.
The area gate there has no 100px minimum and couples the two sides: both
regions are kept only when both area ratios pass, otherwise both are
dropped; and when only one detection succeeds, its raw bounds are still
reported while confidence stays 1.0 and the method is `full`. -/
def backend_resolve (auto_crop : Bool) (img1 img2 : Img) :
    Option Region × Option Region × ℚ × DetectMethod :=
  if auto_crop then
    match detect_content_bounds img1, detect_content_bounds img2 with
    | some b1, some b2 =>
      let area1 := content_ratio img1 b1
      let area2 := content_ratio img2 b2
      if (0.15 : ℚ) < area1 ∧ area1 < (0.95 : ℚ)
          ∧ (0.15 : ℚ) < area2 ∧ area2 < (0.95 : ℚ) then
        (some b1, some b2, 0.9, DetectMethod.threshold)
      else (none, none, 1, DetectMethod.full)
    | b1, b2 => (b1, b2, 1, DetectMethod.full)
  else (none, none, 1, DetectMethod.full)

/-- A 20×20 page with a 10×10 dark block at rows/columns 5..14 (area ratio
81/400, inside the backend gate). -/
def blockS : Img :=
  ⟨20, 20, fun r c => if 5 ≤ r ∧ r ≤ 14 ∧ 5 ≤ c ∧ c ≤ 14 then 0 else 255⟩

/-- A fully white 20×20 page: no row or column qualifies. -/
def whiteS : Img :=
  ⟨20, 20, fun _ _ => 255⟩

/-- C8 counterexample: in the backend service the detection evidence
reported for image 1 is not a function of image 1 alone: comparing `blockS`
against itself yields bounds with confidence 0.9, method `threshold`, while
comparing the same `blockS` against a white page yields confidence 1.0,
method `full`.  The (bounds1, confidence, method) view of side 1 therefore
changes when only the other image changes. -/
theorem backend_resolve_side1_dependent_cex :
    ¬((backend_resolve true blockS blockS).1
        = (backend_resolve true blockS whiteS).1
      ∧ (backend_resolve true blockS blockS).2.2
        = (backend_resolve true blockS whiteS).2.2) := by
  with_unfolding_all decide

/-- C8 (amended): in the desktop engine (`proofreading_v3.py`) the detection
resolved for one side depends only on that side's image, the auto-crop flag
and that side's manual rectangle: varying the other image never changes it;
with a manual rectangle set for one side only, that side resolves to the
rectangle with confidence 1.0 and method `manual` while the other side runs
the automatic policy.  In the backend service the claim fails, because the
gate couples the two sides (see the counterexample). -/
theorem calc_detections_independent (edgeDetect : Img → Option Region)
    (auto_crop_enabled : Bool) (m1 m2 : Option Region)
    (img1 img2 img2' : Img) :
    ((calc_detections edgeDetect auto_crop_enabled m1 m2 img1 img2).1
      = (calc_detections edgeDetect auto_crop_enabled m1 m2 img1 img2').1)
  ∧ (∀ r, (calc_detections edgeDetect auto_crop_enabled (some r) none img1 img2).1
        = (r, 1, DetectMethod.manual)
      ∧ (calc_detections edgeDetect auto_crop_enabled (some r) none img1 img2).2
        = detect_content_region edgeDetect auto_crop_enabled img2) :=
  ⟨rfl, fun _ => ⟨rfl, rfl⟩⟩

/-! ### Identifier extraction and pair resolution -/

/-- `os.path.basename`: the suffix of the name after the last `'/'`,
modelled by a left fold that restarts at every separator. -/
def basename (s : List Char) : List Char :=
  s.foldl (fun acc c => if c = '/' then [] else acc ++ [c]) []

/-- `extract_code` (identical in `app.py` and `proofreading_v3.py`):
`base_name[:8] if len(base_name) >= 8 else base_name`. -/
def extract_code (s : List Char) : List Char :=
  let base_name := basename s
  if 8 ≤ base_name.length then base_name.take 8 else base_name

/-- C9: the identifier extractor returns the first 8 characters of the base
name (in which case the code has length exactly 8), or the whole base name
when it is shorter than 8 characters; no extension stripping and no case or
whitespace normalization happens (the concrete codes below retain the raw
characters), and the function is total by construction.  Both
`ABC12345_v1.pdf` and `ABC12345_v2.pdf` yield code `ABC12345`. -/
theorem extract_code_spec (s : List Char) :
    (8 ≤ (basename s).length →
      extract_code s = (basename s).take 8 ∧ (extract_code s).length = 8)
  ∧ ((basename s).length < 8 → extract_code s = basename s)
  ∧ extract_code "ABC12345_v1.pdf".toList = "ABC12345".toList
  ∧ extract_code "ABC12345_v2.pdf".toList = "ABC12345".toList := by
  refine ⟨fun h => ⟨?_, ?_⟩, fun h => ?_, by decide, by decide⟩
  · unfold extract_code
    rw [if_pos h]
  · unfold extract_code
    rw [if_pos h, List.length_take]
    omega
  · unfold extract_code
    rw [if_neg (by omega)]

theorem extract_code_spec_witness :
    (8 ≤ (basename "dir/ABCDEFGHIJ.pdf".toList).length
      ∧ extract_code "dir/ABCDEFGHIJ.pdf".toList
        = (basename "dir/ABCDEFGHIJ.pdf".toList).take 8)
  ∧ ((basename "ab.pdf".toList).length < 8
      ∧ extract_code "ab.pdf".toList = basename "ab.pdf".toList) :=
  ⟨⟨by decide, ((extract_code_spec "dir/ABCDEFGHIJ.pdf".toList).1 (by decide)).1⟩,
   ⟨by decide, (extract_code_spec "ab.pdf".toList).2.1 (by decide)⟩⟩

/-- Match kinds of a resolved pair. -/
inductive MatchKind
  | Both
  | OriginalOnly
  | PrinterOnly
deriving DecidableEq, Repr

/-- A resolved pair as assembled by `upload_files` in `app.py`
(`litho_code`, `original_path`, `printer_path`, `matching`). -/
structure Pair where
  code : List Char
  original : Option (List Char)
  printer : Option (List Char)
  matchKind : MatchKind
deriving DecidableEq, Repr

/-- One iteration of the first loop of `upload_files`: extract the code,
mark it processed, search the printer list for the first file with an equal
code, and append the resulting pair. -/
def pair_step (printer_pdfs : List (List Char))
    (acc : List Pair × List (List Char)) (original_pdf : List Char) :
    List Pair × List (List Char) :=
  let code := extract_code original_pdf
  let matching_printer := printer_pdfs.find? (fun p => extract_code p == code)
  let pr : Pair :=
    match matching_printer with
    | some p => ⟨code, some original_pdf, some p, MatchKind.Both⟩
    | none => ⟨code, some original_pdf, none, MatchKind.OriginalOnly⟩
  (acc.1 ++ [pr], acc.2 ++ [code])

/-- The pairing algorithm of `upload_files` (`app.py`): process all original
files in order, then append a `PrinterOnly` pair for every printer file
whose code was not processed during the first loop. -/
def resolve_pairs (original_pdfs printer_pdfs : List (List Char)) :
    List Pair :=
  let state := original_pdfs.foldl (pair_step printer_pdfs) ([], [])
  state.1 ++
    (printer_pdfs.filter
        (fun p => !(state.2.contains (extract_code p)))).map
      (fun p => ⟨extract_code p, none, some p, MatchKind.PrinterOnly⟩)

theorem pair_fold (printer_pdfs : List (List Char)) :
    ∀ (origs : List (List Char)) (acc : List Pair × List (List Char)),
      origs.foldl (pair_step printer_pdfs) acc
        = (acc.1 ++ origs.map (fun o =>
            match printer_pdfs.find? (fun p => extract_code p == extract_code o) with
            | some p => ⟨extract_code o, some o, some p, MatchKind.Both⟩
            | none => ⟨extract_code o, some o, none, MatchKind.OriginalOnly⟩),
           acc.2 ++ origs.map extract_code) := by
  intro origs
  induction origs with
  | nil => intro acc; simp
  | cons o os ih =>
    intro acc
    rw [List.foldl_cons, ih]
    unfold pair_step
    simp [List.append_assoc]

/-- C2: the resolver pairs every original file, in original-list order, with
the first printer file (in printer-list order) whose derived code equals its
own, producing a `Both` pair when found and an `OriginalOnly` pair
otherwise, and marks the code processed; every printer file whose code was
not processed then becomes a `PrinterOnly` pair; the output is all
original-derived pairs in original-list order followed by the printer-only
pairs in printer-list order. -/
theorem resolve_pairs_spec (original_pdfs printer_pdfs : List (List Char)) :
    resolve_pairs original_pdfs printer_pdfs =
      original_pdfs.map (fun o =>
        match printer_pdfs.find? (fun p => extract_code p == extract_code o) with
        | some p => ⟨extract_code o, some o, some p, MatchKind.Both⟩
        | none => ⟨extract_code o, some o, none, MatchKind.OriginalOnly⟩)
      ++ (printer_pdfs.filter
            (fun p =>
              !((original_pdfs.map extract_code).contains (extract_code p)))).map
          (fun p => ⟨extract_code p, none, some p, MatchKind.PrinterOnly⟩) := by
  unfold resolve_pairs
  rw [pair_fold printer_pdfs original_pdfs ([], [])]
  simp

/-! ### Page validation aggregation (proofreading_v3.py, validate_image) -/

/-- A per-page human decision. -/
inductive Decision
  | Approved
  | Rejected
deriving DecidableEq, Repr

/-- The aggregated pair-level status. -/
inductive PairStatus
  | Pending
  | Approved
  | Rejected
deriving DecidableEq, Repr

/-- The aggregation loop of `validate_image` (`proofreading_v3.py`): a page
contributes `none` when its key is absent from `page_validations` or stores
`None`; `all_pages_validated` is falsified by any such page, `any_rejected`
is set by any page equal to `"Rejected"`; the global status is
`Rejected`/`Approved` when all pages are validated, else `Pending`
(displayed with a progress count). -/
def aggregate_status (pages : List (Option Decision)) : PairStatus :=
  let all_pages_validated := pages.all (fun p => p.isSome)
  let any_rejected := pages.any (fun p => p == some Decision.Rejected)
  if all_pages_validated then
    if any_rejected then PairStatus.Rejected else PairStatus.Approved
  else PairStatus.Pending

theorem all_isSome_iff (pages : List (Option Decision)) :
    pages.all (fun p => p.isSome) = true ↔ none ∉ pages := by
  rw [List.all_eq_true]
  constructor
  · intro h hmem
    simpa using h none hmem
  · intro h p hp
    cases p with
    | none => exact absurd hp h
    | some d => simp

theorem any_rejected_iff (pages : List (Option Decision)) :
    pages.any (fun p => p == some Decision.Rejected) = true
      ↔ some Decision.Rejected ∈ pages := by
  rw [List.any_eq_true]
  constructor
  · rintro ⟨p, hp, he⟩
    rw [beq_iff_eq] at he
    exact he ▸ hp
  · intro h
    exact ⟨_, h, by simp⟩

/-- C5: the aggregated pair status is `Pending` iff some page lacks a
decision, `Rejected` iff all pages are decided and at least one is
`Rejected`, and `Approved` iff all pages are decided and none is `Rejected`;
in particular a 3-page pair with [Approved, Approved, Pending] is `Pending`,
[Approved, Rejected, Approved] is `Rejected`, and
[Approved, Approved, Approved] is `Approved`. -/
theorem aggregate_status_spec (pages : List (Option Decision)) :
    (aggregate_status pages = PairStatus.Pending ↔ none ∈ pages)
  ∧ (aggregate_status pages = PairStatus.Rejected ↔
      none ∉ pages ∧ some Decision.Rejected ∈ pages)
  ∧ (aggregate_status pages = PairStatus.Approved ↔
      none ∉ pages ∧ some Decision.Rejected ∉ pages)
  ∧ aggregate_status [some Decision.Approved, some Decision.Approved, none]
      = PairStatus.Pending
  ∧ aggregate_status
      [some Decision.Approved, some Decision.Rejected, some Decision.Approved]
      = PairStatus.Rejected
  ∧ aggregate_status
      [some Decision.Approved, some Decision.Approved, some Decision.Approved]
      = PairStatus.Approved := by
  refine ⟨?_, ?_, ?_, by decide, by decide, by decide⟩ <;>
    · unfold aggregate_status
      cases h1 : pages.all (fun p => p.isSome) with
      | false =>
        have hmem : none ∈ pages := by
          by_contra hnm
          exact absurd (all_isSome_iff pages |>.mpr hnm) (by simp [h1])
        simp [hmem]
      | true =>
        have hnm : none ∉ pages := (all_isSome_iff pages).mp h1
        cases h2 : pages.any (fun p => p == some Decision.Rejected) with
        | false =>
          have hr : some Decision.Rejected ∉ pages := by
            intro hmem
            exact absurd ((any_rejected_iff pages).mpr hmem) (by simp [h2])
          simp [hnm, hr]
        | true =>
          have hr : some Decision.Rejected ∈ pages := (any_rejected_iff pages).mp h2
          simp [hnm, hr]

theorem aggregate_status_spec_witness :
    aggregate_status [some Decision.Approved, none] = PairStatus.Pending :=
  (aggregate_status_spec [some Decision.Approved, none]).1.mpr (by decide)

/-! ### The web app validation state (app.py) -/

/-- The `validation` field of a stored result. -/
inductive WebValidation
  | Pending
  | Approved
  | Rejected
  | AutoApproved
deriving DecidableEq, Repr

/-- One entry of `comparison_results` in `app.py` (image payloads omitted:
no claim concerns them). -/
structure WebResult where
  litho_code : String
  filename : String
  score : Option ℚ
  matching : MatchKind
  validation : WebValidation
  comment : String
  date : String
deriving DecidableEq, Repr

/-- The audit comment written by auto-approval
(`f'Auto-approved (Score: {score}%)'`; Python float formatting abstracted by
`toString`). -/
def auto_comment (s : ℚ) : String :=
  "Auto-approved (Score: " ++ toString s ++ "%)"

/-- The `/auto-approve` endpoint (`app.py`): for every stored result, if the
score is truthy (neither `None` nor 0), at least the threshold, and the
validation is `Pending`, set validation `Auto-Approved` with audit comment
and timestamp; otherwise leave the entry unchanged. -/
def auto_approve (threshold : ℚ) (now : String)
    (results : List WebResult) : List WebResult :=
  results.map fun result =>
    match result.score with
    | some s =>
      if s ≠ 0 ∧ threshold ≤ s ∧ result.validation = WebValidation.Pending then
        { result with
          validation := WebValidation.AutoApproved
          comment := auto_comment s
          date := now }
      else result
    | none => result

/-- C6: auto-approve changes an entry only when its validation is `Pending`
and its (truthy) score is at least the threshold, in which case the entry
becomes `Auto-Approved`; an entry carrying an explicit `Approved` or
`Rejected` decision is never changed; the stored list keeps its length.
(The web app renders only page 0 of each PDF, so every stored pair is
single-page and the multi-page exclusion of the claim is vacuous there.) -/
theorem auto_approve_guard (threshold : ℚ) (now : String)
    (results : List WebResult) (i : ℕ) (r rAfter : WebResult)
    (hr : results[i]? = some r)
    (hr' : (auto_approve threshold now results)[i]? = some rAfter) :
    ((r.validation = WebValidation.Approved
        ∨ r.validation = WebValidation.Rejected) → rAfter = r)
  ∧ (rAfter ≠ r → r.validation = WebValidation.Pending
      ∧ ∃ s, r.score = some s ∧ s ≠ 0 ∧ threshold ≤ s
        ∧ rAfter = { r with
            validation := WebValidation.AutoApproved
            comment := auto_comment s
            date := now })
  ∧ (auto_approve threshold now results).length = results.length := by
  have hmap : (auto_approve threshold now results)[i]?
      = (results[i]?).map (fun result =>
          match result.score with
          | some s =>
            if s ≠ 0 ∧ threshold ≤ s
                ∧ result.validation = WebValidation.Pending then
              { result with
                validation := WebValidation.AutoApproved
                comment := auto_comment s
                date := now }
            else result
          | none => result) := List.getElem?_map _ _ _
  rw [hmap, hr] at hr'
  simp only [Option.map_some', Option.some.injEq] at hr'
  have key : rAfter = r
      ∨ (r.validation = WebValidation.Pending
          ∧ ∃ s, r.score = some s ∧ s ≠ 0 ∧ threshold ≤ s
            ∧ rAfter = { r with
                validation := WebValidation.AutoApproved
                comment := auto_comment s
                date := now }) := by
    split at hr'
    · rename_i s hs
      split at hr'
      · rename_i hcond
        exact Or.inr ⟨hcond.2.2, s, hs, hcond.1, hcond.2.1, hr'.symm⟩
      · exact Or.inl hr'.symm
    · exact Or.inl hr'.symm
  refine ⟨?_, ?_, List.length_map _ _⟩
  · intro hval
    rcases key with h | ⟨hpend, -⟩
    · exact h
    · rcases hval with hval | hval <;> cases hval.symm.trans hpend
  · intro hne
    rcases key with h | hgood
    · exact absurd h hne
    · exact hgood

/-- A stored result carrying an explicit human approval. -/
def wApproved : WebResult :=
  ⟨"A1", "a1.pdf", some 96, MatchKind.Both, WebValidation.Approved, "", ""⟩

/-- A pending stored result with a high score. -/
def wPending : WebResult :=
  ⟨"B2", "b2.pdf", some 96, MatchKind.Both, WebValidation.Pending, "", ""⟩

theorem auto_approve_guard_witness :
    (auto_approve 95 "2026-01-01" [wApproved, wPending]).length
      = [wApproved, wPending].length :=
  (auto_approve_guard 95 "2026-01-01" [wApproved, wPending] 0
    wApproved wApproved rfl (by with_unfolding_all decide)).2.2

/-- The updated entry written by `validate_item`: validation from the
`approved` flag, comment and date overwritten, all other fields kept. -/
def validated_entry (r : WebResult) (approved : Bool)
    (comment date : String) : WebResult :=
  { r with
    validation := if approved then WebValidation.Approved
      else WebValidation.Rejected
    comment := comment
    date := date }

/-- The `/validate/<int:index>` endpoint (`app.py`): in range, overwrite the
entry's validation (`Approved`/`Rejected` from the `approved` flag), comment
and date and answer success; out of range, answer an error (the Flask `int`
converter only admits non-negative indices, so the index is a ℕ). -/
def validate_item (results : List WebResult) (index : ℕ) (approved : Bool)
    (comment date : String) : Except String (List WebResult) :=
  if h : index < results.length then
    Except.ok (results.set index
      (validated_entry (results.get ⟨index, h⟩) approved comment date))
  else Except.error "Index invalide"

/-- C10: for an in-range index the endpoint succeeds and the new state sets
exactly entry `index` — its validation becoming `Approved` or `Rejected`
according to the flag, its comment and date overwritten, every other field
and every other entry unchanged, the length preserved; for an out-of-range
index it answers an error (and, being a pure function of the old state,
leaves every stored result unchanged). -/
theorem validate_item_spec (results : List WebResult) (index : ℕ)
    (approved : Bool) (comment date : String) :
    (results.length ≤ index →
      validate_item results index approved comment date
        = Except.error "Index invalide")
  ∧ (∀ h : index < results.length,
      validate_item results index approved comment date
        = Except.ok (results.set index
            (validated_entry (results.get ⟨index, h⟩) approved comment date))
      ∧ (validated_entry (results.get ⟨index, h⟩) approved comment date).validation
          = (if approved then WebValidation.Approved else WebValidation.Rejected)
      ∧ (validated_entry (results.get ⟨index, h⟩) approved comment date).comment
          = comment
      ∧ (validated_entry (results.get ⟨index, h⟩) approved comment date).date
          = date
      ∧ (validated_entry (results.get ⟨index, h⟩) approved comment date).litho_code
          = (results.get ⟨index, h⟩).litho_code
      ∧ (validated_entry (results.get ⟨index, h⟩) approved comment date).score
          = (results.get ⟨index, h⟩).score
      ∧ (results.set index
            (validated_entry (results.get ⟨index, h⟩) approved comment date)).length
          = results.length
      ∧ (results.set index
            (validated_entry (results.get ⟨index, h⟩) approved comment date))[index]?
          = some (validated_entry (results.get ⟨index, h⟩) approved comment date)
      ∧ ∀ j, j ≠ index →
          (results.set index
            (validated_entry (results.get ⟨index, h⟩) approved comment date))[j]?
            = results[j]?) := by
  constructor
  · intro h
    unfold validate_item
    rw [dif_neg (by omega)]
  · intro h
    refine ⟨dif_pos h, rfl, rfl, rfl, rfl, rfl, List.length_set _ _ _,
      List.getElem?_set_self (by simpa using h), ?_⟩
    intro j hj
    exact List.getElem?_set_ne (by omega)

/-- The entry `wApproved` after an in-range validation with `approved =
true`, comment `"c"` and date `"d"`. -/
def wApprovedUpd : WebResult :=
  { wApproved with
    validation := WebValidation.Approved
    comment := "c"
    date := "d" }

theorem validate_item_spec_witness :
    validate_item [wApproved, wPending] 0 true "c" "d"
        = Except.ok [wApprovedUpd, wPending]
  ∧ validate_item [wApproved, wPending] 5 true "c" "d"
        = Except.error "Index invalide" := by
  have h0 : 0 < ([wApproved, wPending] : List WebResult).length := by
    simp
  refine ⟨?_, (validate_item_spec [wApproved, wPending] 5 true "c" "d").1 (by simp)⟩
  have h1 := ((validate_item_spec [wApproved, wPending] 0 true "c" "d").2 h0).1
  exact h1

/-! ### SSIM and `compare_images` (app.py) -/

/-- Sum of a buffer over the 7×7 window anchored at `(i, j)`
(`win_size = 7`, the skimage default for non-Gaussian windows). -/
def winSum (f : ℕ → ℕ → ℚ) (i j : ℕ) : ℚ :=
  ∑ a ∈ Finset.range 7, ∑ b ∈ Finset.range 7, f (i + a) (j + b)

/-- One entry of the SSIM map `S` of `skimage.metrics.structural_similarity`
with its defaults (uniform 7×7 windows, sample covariance normalisation
`cov_norm = 49/48`, `K1 = 0.01`, `K2 = 0.03`) for the window anchored at
`(i, j)`: local means `ux, uy`, sample variances `vx, vy`, covariance `vxy`,
and `S = ((2 ux uy + C1)(2 vxy + C2)) / ((ux² + uy² + C1)(vx + vy + C2))`. -/
def ssimLocal (L : ℚ) (X Y : ℕ → ℕ → ℚ) (i j : ℕ) : ℚ :=
  let ux := winSum X i j / 49
  let uy := winSum Y i j / 49
  let uxx := winSum (fun a b => X a b * X a b) i j / 49
  let uyy := winSum (fun a b => Y a b * Y a b) i j / 49
  let uxy := winSum (fun a b => X a b * Y a b) i j / 49
  let vx := 49 / 48 * (uxx - ux * ux)
  let vy := 49 / 48 * (uyy - uy * uy)
  let vxy := 49 / 48 * (uxy - ux * uy)
  let C1 := (0.01 * L) ^ 2
  let C2 := (0.03 * L) ^ 2
  ((2 * ux * uy + C1) * (2 * vxy + C2))
    / ((ux * ux + uy * uy + C1) * (vx + vy + C2))

/-- `ssim(im1, im2, data_range=L)` on h×w grayscale arrays: skimage crops
`pad = 3` from each border (where the uniform filter sees exactly the full
7×7 windows) and averages the remaining (h-6)×(w-6) local values. -/
def mssim (L : ℚ) (X Y : ℕ → ℕ → ℚ) (h w : ℕ) : ℚ :=
  (∑ i ∈ Finset.range (h - 6), ∑ j ∈ Finset.range (w - 6),
      ssimLocal L X Y i j)
    / (((h - 6) * (w - 6) : ℕ) : ℚ)

/-- All entries of an h×w grayscale array, row-major. -/
def matEntries (h w : ℕ) (f : ℕ → ℕ → ℚ) : List ℚ :=
  (List.range h).foldr (fun i acc => ((List.range w).map (f i)) ++ acc) []

/-- `a.max() - a.min()` of an h×w array (0 for an empty array). -/
def data_range (h w : ℕ) (f : ℕ → ℕ → ℚ) : ℚ :=
  match matEntries h w f with
  | [] => 0
  | x :: xs => xs.foldl max x - xs.foldl min x

/-- Python `round` to an integer (round half to even). -/
def pyRound (q : ℚ) : ℤ :=
  if q - ⌊q⌋ < 1 / 2 then ⌊q⌋
  else if 1 / 2 < q - ⌊q⌋ then ⌊q⌋ + 1
  else if Even ⌊q⌋ then ⌊q⌋ else ⌊q⌋ + 1

/-- Python `round(x, 2)`. -/
def round2 (q : ℚ) : ℚ :=
  (pyRound (q * 100) : ℚ) / 100

/-- `compare_images` from `app.py` on two grayscale buffers of equal shape
h×w with h, w ≤ 800: on that domain the two `thumbnail` calls and the
size-equalizing `resize` are the identity, and the remaining pipeline is
`ssim(gray1, gray2, data_range=gray2.max() - gray2.min())`, scaling to
[0, 100] with clamping, and rounding to 2 decimals.  (The grayscale
conversion `np.mean(arr, axis=2)` is applied identically per side and is
absorbed into the buffers.)  Note the data range comes from the second
image only. -/
def compare_images (h w : ℕ) (gray1 gray2 : ℕ → ℕ → ℚ) : ℚ :=
  let similarity_index := mssim (data_range h w gray2) gray1 gray2 h w
  let score := max 0 (min 100 (similarity_index * 100))
  round2 score

/-- A 7×7 black/white checkerboard. -/
def gA : ℕ → ℕ → ℚ :=
  fun i j => if (i + j) % 2 = 0 then 0 else 255

/-- A 7×7 near-constant buffer (values 100 and 102) correlated with `gA`. -/
def gB : ℕ → ℕ → ℚ :=
  fun i j => if (i + j) % 2 = 0 then 100 else 102

set_option maxRecDepth 200000 in
/-- C4 counterexample: `compare_images` is not symmetric, because
`data_range` is taken from the second image only: comparing the
checkerboard `gA` (range 255) against the near-constant `gB` (range 2) in
the two orders yields different scores. -/
theorem compare_images_asymmetric_cex :
    compare_images 7 7 gA gB ≠ compare_images 7 7 gB gA := by
  with_unfolding_all decide

theorem winSum_congr {f g : ℕ → ℕ → ℚ} (h : ∀ a b, f a b = g a b)
    (i j : ℕ) : winSum f i j = winSum g i j := by
  unfold winSum
  exact Finset.sum_congr rfl fun a _ =>
    Finset.sum_congr rfl fun b _ => h _ _

theorem ssimLocal_comm (L : ℚ) (X Y : ℕ → ℕ → ℚ) (i j : ℕ) :
    ssimLocal L X Y i j = ssimLocal L Y X i j := by
  simp only [ssimLocal]
  rw [winSum_congr (f := fun a b => X a b * Y a b)
    (g := fun a b => Y a b * X a b) (fun a b => mul_comm _ _) i j]
  ring

theorem mssim_comm (L : ℚ) (X Y : ℕ → ℕ → ℚ) (h w : ℕ) :
    mssim L X Y h w = mssim L Y X h w := by
  unfold mssim
  congr 1
  exact Finset.sum_congr rfl fun i _ =>
    Finset.sum_congr rfl fun j _ => ssimLocal_comm L X Y i j

/-- C4 (amended): the similarity score of `compare_images` is symmetric
whenever the two grayscale buffers have the same shape and the same value
range (`data_range`), since the windowed SSIM itself is symmetric;
unconditional symmetry fails because the code computes the data range from
the second image only (and on a size mismatch resizes only the second
image), see the counterexample.  (The backend `ssim_calculator` path, with
its dtype-fixed data range, is symmetric for the same reason.) -/
theorem compare_images_symm (h w : ℕ) (X Y : ℕ → ℕ → ℚ)
    (hr : data_range h w X = data_range h w Y) :
    compare_images h w X Y = compare_images h w Y X := by
  unfold compare_images
  rw [← hr, mssim_comm]

/-- A 7×7 row-index gradient. -/
def gRow : ℕ → ℕ → ℚ :=
  fun i _ => (i : ℚ)

/-- A 7×7 column-index gradient: same value range as `gRow`. -/
def gCol : ℕ → ℕ → ℚ :=
  fun _ j => (j : ℚ)

set_option maxRecDepth 200000 in
theorem compare_images_symm_witness :
    data_range 7 7 gRow = data_range 7 7 gCol
  ∧ compare_images 7 7 gRow gCol = compare_images 7 7 gCol gRow :=
  ⟨by with_unfolding_all decide,
   compare_images_symm 7 7 gRow gCol (by with_unfolding_all decide)⟩

end Proofreading
